import Mathlib

/-!
Verification development for the BitcoinFeesAlert bot.

Shallow embedding of the reconciliation core of `src/src/index.ts` (the
fee+transaction variant) and, where it differs, `src/unnamed/part_000`
(the fee-only variant).  JS numbers that hold fee amounts are modelled as
rationals; the two document collections backed by aloedb are modelled as
lists of records; async effects (HTTP fetches, message sends) are modelled
by passing their outcomes in as `Except`/`Option` values, and the cache as
explicit state.
-/

set_option autoImplicit false

namespace BitcoinFeesAlert

/-- Fee-tier snapshot returned by the upstream market data source
(`MempoolApiResponse`, index.ts lines 18-24). -/
structure MempoolApiResponse where
  fastestFee : ℚ
  halfHourFee : ℚ
  hourFee : ℚ
  economyFee : ℚ
  minimumFee : ℚ
  deriving DecidableEq, Repr

/-- Value of the `feeType` field of a stored alert.  The TypeScript type
annotation (index.ts line 9) allows only `economyFee`, but the `/alert`
handler of index.ts inserts the string `hourFee` (line 93), and the
fee-only variant (part_000 line 66) inserts `economyFee`; both can occur
in the shared `db.json` store. -/
inductive FeeType where
  | economyFee
  | hourFee
  deriving DecidableEq, Repr

/-- Stored fee alert record (`UserAlert`, index.ts lines 6-10). -/
structure UserAlert where
  telegram_id : String
  feeAmount : ℚ
  feeType : FeeType
  deriving DecidableEq, Repr

/-- Stored transaction watch record (`Transaction`, index.ts lines 12-16). -/
structure Transaction where
  txId : String
  telegram_id : String
  confirmed : Bool
  deriving DecidableEq, Repr

/-- Status part of the upstream transaction response
(`TransactionApiResponse`, index.ts lines 26-31). -/
structure TxStatus where
  confirmed : Bool
  block_height : Option ℤ
  deriving DecidableEq, Repr

/-- Upstream transaction response (index.ts lines 26-31). -/
structure TransactionApiResponse where
  status : TxStatus
  deriving DecidableEq, Repr

/-- The tier value a snapshot assigns to a stored alert's `feeType`. -/
def tierValue (f : MempoolApiResponse) : FeeType → ℚ
  | .economyFee => f.economyFee
  | .hourFee => f.hourFee

/-! ## Subscription store primitives (aloedb lists)

The aloedb collections are JSON arrays of documents; `findOne` returns the
first document matching the query, `insertOne` appends, `updateOne`
merges the update's fields into the first matching document, `deleteOne`
removes the first matching document. -/

/-- First alert whose `telegram_id` equals `id`
(`Alerts.findOne({ telegram_id })`, index.ts line 86). -/
def findOneAlert : List UserAlert → String → Option UserAlert
  | [], _ => none
  | a :: rest, id => if a.telegram_id = id then some a else findOneAlert rest id

/-- Overwrite the `feeAmount` of the first alert whose `telegram_id`
equals `id` (`Alerts.updateOne({ telegram_id }, userAlert)` where
`userAlert` is the found document with `feeAmount` mutated,
index.ts lines 88-89). -/
def updateOneAlertFee : List UserAlert → String → ℚ → List UserAlert
  | [], _, _ => []
  | a :: rest, id, q =>
      if a.telegram_id = id then { a with feeAmount := q } :: rest
      else a :: updateOneAlertFee rest id q

/-- Remove the first record equal to `alert`
(`Alerts.deleteOne(alert)`, index.ts line 153). -/
def deleteOneAlert : List UserAlert → UserAlert → List UserAlert
  | [], _ => []
  | a :: rest, alert => if a = alert then rest else a :: deleteOneAlert rest alert

/-- Number of alert records stored for a given recipient id. -/
def countById (s : List UserAlert) (id : String) : Nat :=
  s.countP (fun a => a.telegram_id = id)

/-- First watch whose `telegram_id` and `txId` both match
(`Transactions.findOne({ telegram_id, txId })`, index.ts line 127). -/
def findOneTx : List Transaction → String → String → Option Transaction
  | [], _, _ => none
  | t :: rest, id, tx =>
      if t.telegram_id = id ∧ t.txId = tx then some t else findOneTx rest id tx

/-- Merge `{ confirmed: true }` into the first record equal to `w`
(`Transactions.updateOne(unconfirmedTransaction, { confirmed: true })`,
index.ts line 170). -/
def updateOneTxConfirmed : List Transaction → Transaction → List Transaction
  | [], _ => []
  | t :: rest, w =>
      if t = w then { t with confirmed := true } :: rest
      else t :: updateOneTxConfirmed rest w

/-! ## Market data client -/

/-- Fee snapshot cache: the module-level mutable `cached` / `cachedAt`
pair (index.ts lines 44-45); the timestamp is milliseconds since epoch. -/
structure FeesCache where
  cached : Option MempoolApiResponse
  cachedAt : Option ℤ
  deriving DecidableEq, Repr

/-- Outcome of one upstream `fetch` of `/api/v1/fees/recommended`:
either a response with an HTTP status and the result of parsing its body
as JSON (`none` when `response.json()` rejects), or a transport error
(the `fetch` promise itself rejects). -/
inductive FetchOutcome where
  | success (status : ℕ) (body : Option MempoolApiResponse)
  | networkError
  deriving DecidableEq, Repr

/-- The freshness guard of `fetchFees`
(`cached && cachedAt && now - cachedAt <= 1000 * 60`, index.ts line 61). -/
def cacheFresh (now : ℤ) (st : FeesCache) : Bool :=
  match st.cached, st.cachedAt with
  | some _, some t => decide (now - t ≤ 1000 * 60)
  | _, _ => false

/-- The upstream branch of `fetchFees` (index.ts lines 65-69): the code
awaits the fetch, awaits `response.json()`, then stores value and
timestamp.  The HTTP status of the response is never consulted.  Returns
(result, new cache state, whether an upstream fetch was performed). -/
def fetchUpstream (now : ℤ) (st : FeesCache) :
    FetchOutcome → Except Unit MempoolApiResponse × FeesCache × Bool
  | .networkError => (.error (), st, true)
  | .success _ none => (.error (), st, true)
  | .success _ (some d) => (.ok d, ⟨some d, some now⟩, true)

/-- `fetchFees` (index.ts lines 60-70): return the cached snapshot when it
is at most 60 seconds old, otherwise fetch upstream. -/
def fetchFees (now : ℤ) (st : FeesCache) (outcome : FetchOutcome) :
    Except Unit MempoolApiResponse × FeesCache × Bool :=
  match st.cached, st.cachedAt with
  | some c, some t =>
      if now - t ≤ 1000 * 60 then (.ok c, st, false)
      else fetchUpstream now st outcome
  | _, _ => fetchUpstream now st outcome

/-! ## Command handlers -/

/-- The `/alert` handler (index.ts lines 80-99).  `arg` models
`Number(ctx.match)`: `none` when the argument is `NaN`, otherwise the
numeric value (an empty argument gives `some 0`, since `Number('') = 0`).
Returns the new alert store and whether the alert was accepted (`false`
means the handler replied with the invalid-number message and returned). -/
def alertCommand (store : List UserAlert) (chatId : String) (arg : Option ℚ) :
    List UserAlert × Bool :=
  match arg with
  | none => (store, false)
  | some q =>
      if q = 0 then (store, false)
      else
        match findOneAlert store chatId with
        | some _ => (updateOneAlertFee store chatId q, true)
        | none => (store ++ [⟨chatId, q, FeeType.hourFee⟩], true)

/-- Replies the `/tx` handler can send. -/
inductive TxReply where
  | missingId
  | invalidId
  | fetchFailed
  | alreadyConfirmed
  | alreadyTracking
  | created
  deriving DecidableEq, Repr

/-- The `/tx` / `/transaction` handler (index.ts lines 108-139).  `arg`
models `ctx.match` (the empty string when no argument was given); `fetch`
models the outcome of `fetchTransaction` (index.ts lines 51-58): `.error`
when the underlying fetch rejects, `.ok none` when the response status is
not 200, `.ok (some r)` for a parsed 200 response.  Returns (reply or
propagated error, new watch store, whether an upstream fetch was
performed). -/
def txCommand (store : List Transaction) (chatId : String) (arg : String)
    (fetch : Except Unit (Option TransactionApiResponse)) :
    Except Unit TxReply × List Transaction × Bool :=
  if arg = "" then (.ok .missingId, store, false)
  else if arg.length ≤ 50 then (.ok .invalidId, store, false)
  else
    match fetch with
    | .error e => (.error e, store, true)
    | .ok none => (.ok .fetchFailed, store, true)
    | .ok (some r) =>
        if r.status.confirmed then (.ok .alreadyConfirmed, store, true)
        else
          match findOneTx store chatId arg with
          | some _ => (.ok .alreadyTracking, store, true)
          | none => (.ok .created, store ++ [⟨arg, chatId, false⟩], true)

/-! ## Fee reconciliation sweep -/

/-- The match set of `checkFeesJob`
(`Alerts.findMany({ feeAmount: moreThanOrEqual(fees.hourFee) })`,
index.ts line 145): every stored alert whose `feeAmount` is greater than
or equal to the snapshot's `hourFee` tier, whatever the alert's own
`feeType`.  (The fee-only variant, part_000 line 96, hardcodes
`economyFee` instead.) -/
def matchedAlerts (store : List UserAlert) (fees : MempoolApiResponse) :
    List UserAlert :=
  store.filter (fun a => fees.hourFee ≤ a.feeAmount)

/-- One matched alert's notification task (index.ts lines 147-154): await
`sendMessage`, and only if it succeeds, delete the alert record.  `send`
is the outcome of the `sendMessage` call.  Returns (task outcome, store
after the task). -/
def processFeeAlert (store : List UserAlert) (alert : UserAlert)
    (send : Except Unit Unit) : Except Unit Unit × List UserAlert :=
  match send with
  | .error e => (.error e, store)
  | .ok _ => (.ok (), deleteOneAlert store alert)

/-- Store state after `checkFeesJob` runs all matched alerts' tasks and
awaits `Promise.allSettled` (index.ts lines 147-160): each task deletes
its alert exactly when its send succeeded; failed tasks are only counted
and logged. -/
def feeSweepStore (store : List UserAlert) (fees : MempoolApiResponse)
    (sendEnv : UserAlert → Except Unit Unit) : List UserAlert :=
  (matchedAlerts store fees).foldl
    (fun s a => (processFeeAlert s a (sendEnv a)).2) store

/-- `checkFeesJob` (index.ts lines 143-161): returns the match set (every
matched alert's task is started, regardless of other tasks' failures) and
the final store. -/
def checkFeesJob (store : List UserAlert) (fees : MempoolApiResponse)
    (sendEnv : UserAlert → Except Unit Unit) :
    List UserAlert × List UserAlert :=
  (matchedAlerts store fees, feeSweepStore store fees sendEnv)

/-! ## Transaction reconciliation sweep -/

/-- Per-watch environment for one tick of `checkTransactionsJob`: the
outcome of `fetchTransaction` for this watch and the outcome of the
confirmation `sendMessage` (only consulted when the fetch reports a
confirmed transaction). -/
structure WatchEnv where
  fetchTx : Except Unit (Option TransactionApiResponse)
  send : Except Unit Unit

/-- One iteration of the `for await` loop body (index.ts lines 166-172):
fetch the transaction; if the fetch rejects the error propagates; if it
returns a parsed response with `status.confirmed`, send the notification
(a send failure propagates) and then set the record's `confirmed` flag.
Returns (iteration outcome, store after the iteration). -/
def checkTransactionStep (store : List Transaction) (w : Transaction)
    (env : WatchEnv) : Except Unit Unit × List Transaction :=
  match env.fetchTx with
  | .error e => (.error e, store)
  | .ok none => (.ok (), store)
  | .ok (some r) =>
      if r.status.confirmed then
        match env.send with
        | .error e => (.error e, store)
        | .ok _ => (.ok (), updateOneTxConfirmed store w)
      else (.ok (), store)

/-- Whether one iteration of the transaction sweep loop succeeds; this
depends only on the environment, not on the store. -/
def stepOutcome (env : WatchEnv) : Except Unit Unit :=
  match env.fetchTx with
  | .error e => .error e
  | .ok none => .ok ()
  | .ok (some r) => if r.status.confirmed then env.send else .ok ()

/-- The sequential `for await` loop of `checkTransactionsJob` over the
snapshotted list of pending watches: the first failing iteration rejects
the whole job, so later pending watches are never checked.  Returns
(watches actually checked, job outcome, final store). -/
def runWatchLoop (env : Transaction → WatchEnv) :
    List Transaction → List Transaction →
    List Transaction × Except Unit Unit × List Transaction
  | [], store => ([], .ok (), store)
  | w :: rest, store =>
      match checkTransactionStep store w (env w) with
      | (.error e, store1) => ([w], .error e, store1)
      | (.ok _, store1) =>
          let r := runWatchLoop env rest store1
          (w :: r.1, r.2.1, r.2.2)

/-- `checkTransactionsJob` (index.ts lines 163-174): query the store for
all watches with `confirmed == false`, then walk them sequentially. -/
def checkTransactionsJob (store : List Transaction)
    (env : Transaction → WatchEnv) :
    List Transaction × Except Unit Unit × List Transaction :=
  runWatchLoop env (store.filter (fun t => t.confirmed = false)) store

/-! ## Scheduler -/

/-- ECMAScript `Promise.prototype.catch(onRejected)` applied to a settled
promise: it is `then(undefined, onRejected)`, and when `onRejected` is not
callable (as in `fn().catch()` with no argument) the rejection passes
through unchanged. -/
def jsCatch (handler : Option (Unit → Except Unit Unit))
    (p : Except Unit Unit) : Except Unit Unit :=
  match p with
  | .ok a => .ok a
  | .error e =>
      match handler with
      | some h => h e
      | none => .error e

/-- Whether one tick of `runJobInterval` (index.ts lines 176-179) reaches
its `setTimeout` line and schedules the next tick: the body is
`await fn().catch()` followed by `setTimeout`, so the next tick is
scheduled exactly when the awaited `fn().catch()` promise fulfills. -/
def schedulesNextTick (tickResult : Except Unit Unit) : Bool :=
  match jsCatch none tickResult with
  | .ok _ => true
  | .error _ => false

/-! ## Helper lemmas -/

instance {ε α : Type} [DecidableEq ε] [DecidableEq α] :
    DecidableEq (Except ε α) := fun a b =>
  match a, b with
  | .ok x, .ok y =>
      if h : x = y then isTrue (by rw [h])
      else isFalse (by intro hc; cases hc; exact h rfl)
  | .error x, .error y =>
      if h : x = y then isTrue (by rw [h])
      else isFalse (by intro hc; cases hc; exact h rfl)
  | .ok _, .error _ => isFalse (fun h => Except.noConfusion h)
  | .error _, .ok _ => isFalse (fun h => Except.noConfusion h)

/-- Number of occurrences of a record in an alert store. -/
def occAlert (s : List UserAlert) (a : UserAlert) : Nat :=
  s.countP (fun b => b = a)

theorem findOneAlert_none (store : List UserAlert) (id : String)
    (h : findOneAlert store id = none) : countById store id = 0 := by
  induction store with
  | nil => rfl
  | cons b rest ih =>
      by_cases hb : b.telegram_id = id
      · simp [findOneAlert, hb] at h
      · simp only [findOneAlert, hb, if_false] at h
        simp [countById, List.countP_cons, hb] at ih ⊢
        exact ih h

theorem findOneAlert_some (store : List UserAlert) (id : String) (a : UserAlert)
    (h : findOneAlert store id = some a) : 1 ≤ countById store id := by
  induction store with
  | nil => simp [findOneAlert] at h
  | cons b rest ih =>
      by_cases hb : b.telegram_id = id
      · simp [countById, List.countP_cons, hb]
      · simp only [findOneAlert, hb, if_false] at h
        simp [countById, List.countP_cons, hb] at ih ⊢
        exact ih h

theorem countById_append_single (s : List UserAlert) (x : UserAlert)
    (id : String) :
    countById (s ++ [x]) id = countById s id + countById [x] id := by
  unfold countById
  rw [List.countP_append]

theorem countById_updateOneAlertFee (store : List UserAlert) (id : String)
    (q : ℚ) (id2 : String) :
    countById (updateOneAlertFee store id q) id2 = countById store id2 := by
  induction store with
  | nil => rfl
  | cons b rest ih =>
      by_cases hb : b.telegram_id = id
      · simp [updateOneAlertFee, hb, countById, List.countP_cons]
      · simp [updateOneAlertFee, hb, countById, List.countP_cons] at ih ⊢
        exact ih

theorem updateOneAlertFee_mem (store : List UserAlert) (id : String) (q : ℚ)
    (a0 : UserAlert) (h : findOneAlert store id = some a0) :
    ∃ a ∈ updateOneAlertFee store id q, a.telegram_id = id ∧ a.feeAmount = q := by
  induction store with
  | nil => simp [findOneAlert] at h
  | cons b rest ih =>
      by_cases hb : b.telegram_id = id
      · exact ⟨{ b with feeAmount := q }, by simp [updateOneAlertFee, hb], hb, rfl⟩
      · simp only [findOneAlert, hb, if_false] at h
        obtain ⟨a, ha, h1, h2⟩ := ih h
        exact ⟨a, by simp [updateOneAlertFee, hb, ha], h1, h2⟩

theorem occAlert_deleteOneAlert_self (s : List UserAlert) (a : UserAlert) :
    occAlert (deleteOneAlert s a) a = occAlert s a - 1 := by
  induction s with
  | nil => rfl
  | cons b rest ih =>
      by_cases hb : b = a
      · simp [deleteOneAlert, hb, occAlert, List.countP_cons]
      · simp [deleteOneAlert, hb, occAlert, List.countP_cons] at ih ⊢
        exact ih

theorem occAlert_deleteOneAlert_other (s : List UserAlert) (a b : UserAlert)
    (hb : b ≠ a) : occAlert (deleteOneAlert s b) a = occAlert s a := by
  induction s with
  | nil => rfl
  | cons c rest ih =>
      by_cases hc : c = b
      · subst hc
        simp [deleteOneAlert, occAlert, List.countP_cons, hb]
      · simp [deleteOneAlert, hc, occAlert, List.countP_cons] at ih ⊢
        simp [ih]

theorem occAlert_deleteOneAlert_le (s : List UserAlert) (a b : UserAlert) :
    occAlert (deleteOneAlert s b) a ≤ occAlert s a := by
  by_cases hb : b = a
  · subst hb
    rw [occAlert_deleteOneAlert_self]
    exact Nat.sub_le _ _
  · rw [occAlert_deleteOneAlert_other s a b hb]

theorem occAlert_pos_iff_mem (s : List UserAlert) (a : UserAlert) :
    0 < occAlert s a ↔ a ∈ s := by
  unfold occAlert
  rw [List.countP_pos_iff]
  constructor
  · rintro ⟨b, hb, h⟩
    simp only [decide_eq_true_eq] at h
    exact h ▸ hb
  · intro h
    exact ⟨a, h, by simp⟩

theorem occAlert_le_countById (s : List UserAlert) (a : UserAlert) :
    occAlert s a ≤ countById s a.telegram_id := by
  unfold occAlert countById
  refine List.countP_mono_left ?_
  intro b _ hb
  simp only [decide_eq_true_eq] at hb ⊢
  rw [hb]

theorem occAlert_processFeeAlert_le (s : List UserAlert) (a b : UserAlert)
    (e : Except Unit Unit) :
    occAlert (processFeeAlert s b e).2 a ≤ occAlert s a := by
  cases e with
  | error err => exact Nat.le_refl _
  | ok u => exact occAlert_deleteOneAlert_le s a b

theorem occAlert_processFeeAlert_other (s : List UserAlert) (a b : UserAlert)
    (e : Except Unit Unit) (hb : b ≠ a) :
    occAlert (processFeeAlert s b e).2 a = occAlert s a := by
  cases e with
  | error err => rfl
  | ok u => exact occAlert_deleteOneAlert_other s a b hb

theorem feeSweep_fold_occ_le (sendEnv : UserAlert → Except Unit Unit)
    (a : UserAlert) :
    ∀ (l s : List UserAlert),
      occAlert (l.foldl (fun s b => (processFeeAlert s b (sendEnv b)).2) s) a ≤
        occAlert s a
  | [], _ => Nat.le_refl _
  | b :: rest, s =>
      Nat.le_trans (feeSweep_fold_occ_le sendEnv a rest _)
        (occAlert_processFeeAlert_le s a b (sendEnv b))

theorem feeSweep_fold_deletes (sendEnv : UserAlert → Except Unit Unit)
    (a : UserAlert) (hs : sendEnv a = .ok ()) :
    ∀ (l s : List UserAlert), a ∈ l → occAlert l a ≤ 1 → occAlert s a ≤ 1 →
      occAlert (l.foldl (fun s b => (processFeeAlert s b (sendEnv b)).2) s) a = 0 := by
  intro l
  induction l with
  | nil => intro s h; simp at h
  | cons b rest ih =>
      intro s hmem hl hsle
      by_cases hb : b = a
      · subst hb
        have h1 : occAlert (processFeeAlert s b (sendEnv b)).2 b = 0 := by
          rw [hs, processFeeAlert]
          rw [occAlert_deleteOneAlert_self]
          omega
        have h2 := feeSweep_fold_occ_le sendEnv b rest
          ((processFeeAlert s b (sendEnv b)).2)
        simp only [List.foldl_cons]
        omega
      · have hmem2 : a ∈ rest := by
          rcases List.mem_cons.mp hmem with h | h
          · exact absurd h.symm hb
          · exact h
        have hl2 : occAlert rest a ≤ 1 := by
          simp only [occAlert, List.countP_cons] at hl ⊢
          omega
        have hs2 : occAlert (processFeeAlert s b (sendEnv b)).2 a ≤ 1 := by
          rw [occAlert_processFeeAlert_other s a b (sendEnv b) hb]
          exact hsle
        simp only [List.foldl_cons]
        exact ih _ hmem2 hl2 hs2

/-! ### Market data client lemmas -/

theorem fetchFees_of_stale (now : ℤ) (st : FeesCache) (o : FetchOutcome)
    (h : cacheFresh now st = false) :
    fetchFees now st o = fetchUpstream now st o := by
  obtain ⟨c, t⟩ := st
  cases c with
  | none => cases t <;> rfl
  | some cv =>
      cases t with
      | none => rfl
      | some tv =>
          simp only [cacheFresh, decide_eq_false_iff_not] at h
          simp only [fetchFees, if_neg h]

theorem fetchUpstream_ok (now : ℤ) (st : FeesCache) (o : FetchOutcome)
    (v : MempoolApiResponse) (st1 : FeesCache) (b : Bool)
    (h : fetchUpstream now st o = (.ok v, st1, b)) :
    st1 = ⟨some v, some now⟩ := by
  cases o with
  | networkError => simp [fetchUpstream] at h
  | success s body =>
      cases body with
      | none => simp [fetchUpstream] at h
      | some d =>
          simp only [fetchUpstream, Prod.mk.injEq, Except.ok.injEq] at h
          obtain ⟨h1, h2, _⟩ := h
          rw [← h2, h1]

theorem fetchFees_ok_cached (now : ℤ) (st : FeesCache) (o : FetchOutcome)
    (v : MempoolApiResponse) (st1 : FeesCache) (b : Bool)
    (h : fetchFees now st o = (.ok v, st1, b)) :
    st1.cached = some v := by
  obtain ⟨c, t⟩ := st
  cases c with
  | none =>
      cases t <;>
        simpa using congrArg FeesCache.cached (fetchUpstream_ok now _ o v st1 b h)
  | some cv =>
      cases t with
      | none =>
          simpa using congrArg FeesCache.cached (fetchUpstream_ok now _ o v st1 b h)
      | some tv =>
          by_cases hf : now - tv ≤ 1000 * 60
          · simp only [fetchFees, if_pos hf, Prod.mk.injEq, Except.ok.injEq] at h
            obtain ⟨h1, h2, _⟩ := h
            rw [← h2, h1]
          · simp only [fetchFees, if_neg hf] at h
            simpa using congrArg FeesCache.cached (fetchUpstream_ok now _ o v st1 b h)

/-! ### Transaction sweep lemmas -/

theorem checkTransactionStep_fst (s : List Transaction) (w : Transaction)
    (e : WatchEnv) : (checkTransactionStep s w e).1 = stepOutcome e := by
  obtain ⟨f, sd⟩ := e
  cases f with
  | error err => rfl
  | ok o =>
      cases o with
      | none => rfl
      | some r =>
          by_cases hr : r.status.confirmed <;>
            cases sd <;> simp [checkTransactionStep, stepOutcome, hr]

theorem checkTransactionStep_snd (s : List Transaction) (w : Transaction)
    (e : WatchEnv) :
    (checkTransactionStep s w e).2 = s ∨
      (checkTransactionStep s w e).2 = updateOneTxConfirmed s w := by
  obtain ⟨f, sd⟩ := e
  cases f with
  | error err => exact Or.inl rfl
  | ok o =>
      cases o with
      | none => exact Or.inl rfl
      | some r =>
          by_cases hr : r.status.confirmed <;>
            cases sd <;> simp [checkTransactionStep, hr]

theorem runWatchLoop_cons_error (env : Transaction → WatchEnv)
    (w : Transaction) (rest store st1 : List Transaction)
    (h : checkTransactionStep store w (env w) = (.error (), st1)) :
    runWatchLoop env (w :: rest) store = ([w], .error (), st1) := by
  unfold runWatchLoop
  rw [h]

theorem runWatchLoop_cons_ok (env : Transaction → WatchEnv)
    (w : Transaction) (rest store st1 : List Transaction)
    (h : checkTransactionStep store w (env w) = (.ok (), st1)) :
    runWatchLoop env (w :: rest) store =
      ((w :: (runWatchLoop env rest st1).1, (runWatchLoop env rest st1).2.1,
        (runWatchLoop env rest st1).2.2)) := by
  conv_lhs => unfold runWatchLoop
  rw [h]

theorem runWatchLoop_abort (env : Transaction → WatchEnv) (w : Transaction)
    (p2 : List Transaction) (hfail : stepOutcome (env w) = .error ()) :
    ∀ (p1 store : List Transaction),
      (∀ v ∈ p1, stepOutcome (env v) = .ok ()) →
      (runWatchLoop env (p1 ++ w :: p2) store).1 = p1 ++ [w] ∧
        (runWatchLoop env (p1 ++ w :: p2) store).2.1 = .error () := by
  intro p1
  induction p1 with
  | nil =>
      intro store _
      have h1 := checkTransactionStep_fst store w (env w)
      rw [hfail] at h1
      have hp : checkTransactionStep store w (env w) =
          (.error (), (checkTransactionStep store w (env w)).2) := by
        rw [← h1]
      rw [List.nil_append,
        runWatchLoop_cons_error env w p2 store _ hp]
      exact ⟨rfl, rfl⟩
  | cons v rest ih =>
      intro store hok
      have hv : stepOutcome (env v) = .ok () := hok v (List.mem_cons_self v rest)
      have h1 := checkTransactionStep_fst store v (env v)
      rw [hv] at h1
      have hp : checkTransactionStep store v (env v) =
          (.ok (), (checkTransactionStep store v (env v)).2) := by
        rw [← h1]
      rw [List.cons_append,
        runWatchLoop_cons_ok env v (rest ++ w :: p2) store _ hp]
      have hrest := ih ((checkTransactionStep store v (env v)).2)
        (fun u hu => hok u (List.mem_cons_of_mem v hu))
      exact ⟨by rw [List.cons_append]; exact congrArg (v :: ·) hrest.1, hrest.2⟩

/-- Per-position evolution allowed to a watch record in one sweep: either
unchanged, or the confirmed flag goes from false to true. -/
def monoStepTx (a b : Transaction) : Prop :=
  b = a ∨ (a.confirmed = false ∧ b = { a with confirmed := true })

theorem monoStepTx_refl (l : List Transaction) :
    List.Forall₂ monoStepTx l l :=
  List.forall₂_same.mpr (fun _ _ => Or.inl rfl)

theorem monoStepTx_trans_single (a b c : Transaction)
    (h1 : monoStepTx a b) (h2 : monoStepTx b c) : monoStepTx a c := by
  rcases h2 with h2 | ⟨hb, h2⟩
  · rcases h1 with h1 | ⟨ha, h1⟩
    · exact Or.inl (h2.trans h1)
    · exact Or.inr ⟨ha, h2.trans h1⟩
  · rcases h1 with h1 | ⟨ha, h1⟩
    · subst h1
      exact Or.inr ⟨hb, h2⟩
    · rw [h1] at hb
      simp at hb

theorem monoStepTx_trans (l1 l2 l3 : List Transaction)
    (h1 : List.Forall₂ monoStepTx l1 l2) (h2 : List.Forall₂ monoStepTx l2 l3) :
    List.Forall₂ monoStepTx l1 l3 := by
  induction h1 generalizing l3 with
  | nil => cases h2; exact List.Forall₂.nil
  | cons hab h1r ih =>
      cases h2 with
      | cons hbc h2r =>
          exact List.Forall₂.cons (monoStepTx_trans_single _ _ _ hab hbc) (ih _ h2r)

theorem updateOneTxConfirmed_mono (s : List Transaction) (w : Transaction)
    (hw : w.confirmed = false) :
    List.Forall₂ monoStepTx s (updateOneTxConfirmed s w) := by
  induction s with
  | nil => exact List.Forall₂.nil
  | cons t rest ih =>
      by_cases ht : t = w
      · subst ht
        simp only [updateOneTxConfirmed, if_pos rfl]
        exact List.Forall₂.cons (Or.inr ⟨hw, rfl⟩) (monoStepTx_refl rest)
      · simp only [updateOneTxConfirmed, if_neg ht]
        exact List.Forall₂.cons (Or.inl rfl) ih

theorem checkTransactionStep_mono (s : List Transaction) (w : Transaction)
    (e : WatchEnv) (hw : w.confirmed = false) :
    List.Forall₂ monoStepTx s (checkTransactionStep s w e).2 := by
  rcases checkTransactionStep_snd s w e with h | h
  · rw [h]; exact monoStepTx_refl s
  · rw [h]; exact updateOneTxConfirmed_mono s w hw

theorem runWatchLoop_mono (env : Transaction → WatchEnv) :
    ∀ (pending store : List Transaction),
      (∀ v ∈ pending, v.confirmed = false) →
      List.Forall₂ monoStepTx store (runWatchLoop env pending store).2.2 := by
  intro pending
  induction pending with
  | nil => intro store _; exact monoStepTx_refl store
  | cons w rest ih =>
      intro store hp
      have hw : w.confirmed = false := hp w (List.mem_cons_self w rest)
      have hstep := checkTransactionStep_mono store w (env w) hw
      rcases hs : checkTransactionStep store w (env w) with ⟨out, st1⟩
      rw [hs] at hstep
      cases out with
      | error e =>
          cases e
          rw [runWatchLoop_cons_error env w rest store st1 hs]
          exact hstep
      | ok u =>
          cases u
          rw [runWatchLoop_cons_ok env w rest store st1 hs]
          exact monoStepTx_trans _ _ _ hstep
            (ih st1 (fun v hv => hp v (List.mem_cons_of_mem w hv)))

theorem txCommand_store_cases (store : List Transaction) (chatId arg : String)
    (fetch : Except Unit (Option TransactionApiResponse)) :
    (txCommand store chatId arg fetch).2.1 = store ∨
      (txCommand store chatId arg fetch).2.1 = store ++ [⟨arg, chatId, false⟩] := by
  by_cases h1 : arg = ""
  · left; simp [txCommand, h1]
  by_cases h2 : arg.length ≤ 50
  · left; simp [txCommand, h1, h2]
  cases fetch with
  | error e => left; simp [txCommand, h1, h2]
  | ok o =>
      cases o with
      | none => left; simp [txCommand, h1, h2]
      | some r =>
          by_cases h3 : r.status.confirmed
          · left; simp [txCommand, h1, h2, h3]
          · rcases h4 : findOneTx store chatId arg with _ | t
            · right; simp [txCommand, h1, h2, h3, h4]
            · left; simp [txCommand, h1, h2, h3, h4]

theorem updateOneTxConfirmed_mem (s : List Transaction) (w : Transaction)
    (h : w ∈ s) : { w with confirmed := true } ∈ updateOneTxConfirmed s w := by
  induction s with
  | nil => simp at h
  | cons t rest ih =>
      by_cases ht : t = w
      · subst ht
        simp [updateOneTxConfirmed]
      · simp only [updateOneTxConfirmed, if_neg ht]
        rcases List.mem_cons.mp h with h1 | h1
        · exact absurd h1.symm ht
        · exact List.mem_cons_of_mem t (ih h1)

theorem runWatchLoop_checked_subset (env : Transaction → WatchEnv) :
    ∀ (pending store : List Transaction) (w : Transaction),
      w ∈ (runWatchLoop env pending store).1 → w ∈ pending := by
  intro pending
  induction pending with
  | nil => intro store w h; simp [runWatchLoop] at h
  | cons v rest ih =>
      intro store w h
      rcases hs : checkTransactionStep store v (env v) with ⟨out, st1⟩
      cases out with
      | error e =>
          cases e
          rw [runWatchLoop_cons_error env v rest store st1 hs] at h
          rcases List.mem_singleton.mp h with h1
          exact h1 ▸ List.mem_cons_self v rest
      | ok u =>
          cases u
          rw [runWatchLoop_cons_ok env v rest store st1 hs] at h
          rcases List.mem_cons.mp h with h1 | h1
          · exact h1 ▸ List.mem_cons_self v rest
          · exact List.mem_cons_of_mem v (ih st1 w h1)

theorem forall₂_mono_confirmed_mem (l1 l2 : List Transaction)
    (h : List.Forall₂ monoStepTx l1 l2) :
    ∀ w ∈ l1, w.confirmed = true → w ∈ l2 := by
  induction h with
  | nil => intro w hw; simp at hw
  | cons hab hr ih =>
      intro w hw hc
      rcases List.mem_cons.mp hw with h1 | h1
      · subst h1
        rcases hab with h2 | ⟨h2, _⟩
        · exact h2 ▸ List.mem_cons_self _ _
        · rw [hc] at h2
          cases h2
      · exact List.mem_cons_of_mem _ (ih w h1 hc)

/-! ## Claim theorems -/

/-- C1: the claim fails on the code.  `runJobInterval` runs
`await fn().catch()` with NO rejection handler, so a tick failure is not
caught at the tick boundary: the rejection passes through `catch`, the
`await` throws, and the `setTimeout` that would schedule the next tick is
never reached.  This theorem evaluates the tick boundary at a failing
tick: the next tick is not scheduled. -/
theorem c1_tick_failure_not_rescheduled :
    schedulesNextTick (Except.error ()) = false := rfl

/-- C2 counterexample: an alert whose own tier is `economyFee` with
threshold 5 satisfies `A.threshold >= F[A.tier]` for the snapshot
`{fastest 20, halfHour 15, hour 10, economy 3, minimum 1}` (5 >= 3), yet
it is NOT in the sweep's match set, because the query compares against
the snapshot's `hourFee` (10), not the tier named in the record. -/
theorem c2_counterexample :
    tierValue ⟨20, 15, 10, 3, 1⟩ (⟨"u1", 5, .economyFee⟩ : UserAlert).feeType ≤
        (⟨"u1", 5, .economyFee⟩ : UserAlert).feeAmount
    ∧ (⟨"u1", 5, .economyFee⟩ : UserAlert) ∈ [(⟨"u1", 5, .economyFee⟩ : UserAlert)]
    ∧ (⟨"u1", 5, .economyFee⟩ : UserAlert) ∉
        matchedAlerts [(⟨"u1", 5, .economyFee⟩ : UserAlert)] ⟨20, 15, 10, 3, 1⟩ := by
  refine ⟨by norm_num [tierValue], by simp, ?_⟩
  simp only [matchedAlerts, List.mem_filter, List.mem_singleton]
  intro h
  norm_num at h

/-- C2 (amended): the fee sweep's store query compares every alert's
threshold against the snapshot's `hourFee` tier, regardless of the tier
named in the alert's record: membership in the match set is equivalent to
`F.hourFee <= A.threshold`.  For alerts whose own tier is `hourFee` (the
tier the `/alert` handler of this variant always writes), the claimed
implication from `A.threshold >= F[A.tier]` holds. -/
theorem c2_match_is_fixed_tier_comparison (store : List UserAlert)
    (F : MempoolApiResponse) (A : UserAlert) :
    (A ∈ matchedAlerts store F ↔ A ∈ store ∧ F.hourFee ≤ A.feeAmount)
    ∧ (A ∈ store → A.feeType = .hourFee → tierValue F A.feeType ≤ A.feeAmount →
        A ∈ matchedAlerts store F) := by
  constructor
  · simp [matchedAlerts, List.mem_filter]
  · intro h1 h2 h3
    rw [h2, tierValue] at h3
    simp [matchedAlerts, List.mem_filter, h1, h3]

/-- Witness for the amended C2 at a concrete alert and snapshot. -/
theorem c2_match_is_fixed_tier_comparison_witness :
    ((⟨"u2", 12, .hourFee⟩ : UserAlert) ∈ [(⟨"u2", 12, .hourFee⟩ : UserAlert)])
    ∧ (⟨"u2", 12, .hourFee⟩ : UserAlert).feeType = .hourFee
    ∧ tierValue ⟨20, 15, 10, 3, 1⟩ (⟨"u2", 12, .hourFee⟩ : UserAlert).feeType ≤
        (⟨"u2", 12, .hourFee⟩ : UserAlert).feeAmount
    ∧ (⟨"u2", 12, .hourFee⟩ : UserAlert) ∈
        matchedAlerts [(⟨"u2", 12, .hourFee⟩ : UserAlert)] ⟨20, 15, 10, 3, 1⟩ :=
  ⟨by simp, rfl, by norm_num [tierValue],
    (c2_match_is_fixed_tier_comparison [⟨"u2", 12, .hourFee⟩] ⟨20, 15, 10, 3, 1⟩
        ⟨"u2", 12, .hourFee⟩).2
      (by simp) rfl (by norm_num [tierValue])⟩

/-- C3 counterexample: with no cached snapshot, an upstream response with
the non-success HTTP status 500 whose body parses as a fee snapshot is
stored and returned as a fresh snapshot instead of failing: `fetchFees`
never reads `response.status` (unlike `fetchTransaction`, which checks
for status 200). -/
theorem c3_counterexample :
    fetchFees 0 ⟨none, none⟩ (.success 500 (some ⟨9, 8, 7, 6, 5⟩)) =
      (.ok ⟨9, 8, 7, 6, 5⟩, ⟨some ⟨9, 8, 7, 6, 5⟩, some 0⟩, true) := rfl

/-- C3 (amended): when the cache is absent or stale, `fetchFees` goes
upstream and fails exactly when the fetch rejects or the body fails to
parse as JSON; the HTTP status is never consulted, so any response with a
parseable body is stored and returned whatever its status; a failure
leaves the cache value and timestamp unchanged, so the very next call
retries the upstream immediately. -/
theorem c3_stale_fetch_behavior (now : ℤ) (st : FeesCache) (o : FetchOutcome)
    (h : cacheFresh now st = false) :
    fetchFees now st o = fetchUpstream now st o
    ∧ ((fetchFees now st o).1 = .error () ↔
        o = .networkError ∨ ∃ s, o = .success s none)
    ∧ ((fetchFees now st o).1 = .error () → (fetchFees now st o).2.1 = st)
    ∧ (∀ s d, o = .success s (some d) →
        fetchFees now st o = (.ok d, ⟨some d, some now⟩, true))
    ∧ ((fetchFees now st o).1 = .error () →
        ∀ o2, fetchFees now (fetchFees now st o).2.1 o2 = fetchUpstream now st o2) := by
  have hst := fetchFees_of_stale now st o h
  rw [hst]
  rcases o with ⟨s, body⟩ | _
  · rcases body with _ | d
    · exact ⟨rfl, by simp [fetchUpstream], fun _ => rfl, by simp [fetchUpstream],
        fun _ o2 => fetchFees_of_stale now st o2 h⟩
    · refine ⟨rfl, by simp [fetchUpstream], ?_, ?_, ?_⟩
      · intro hc; simp [fetchUpstream] at hc
      · intro s2 d2 he
        cases he
        rfl
      · intro hc; simp [fetchUpstream] at hc
  · exact ⟨rfl, by simp [fetchUpstream], fun _ => rfl, by simp,
      fun _ o2 => fetchFees_of_stale now st o2 h⟩

/-- Witness for the amended C3 at a concrete stale cache and failing fetch. -/
theorem c3_stale_fetch_behavior_witness :
    cacheFresh 0 ⟨none, none⟩ = false
    ∧ fetchFees 0 ⟨none, none⟩ .networkError =
        fetchUpstream 0 ⟨none, none⟩ .networkError :=
  ⟨rfl, (c3_stale_fetch_behavior 0 ⟨none, none⟩ .networkError rfl).1⟩

/-- C7: any `/tx` (or `/transaction`) invocation whose argument is missing
(the empty match) or at most 50 characters long gets a rejection reply,
triggers no upstream fetch, and leaves the watch store unchanged (the
handler never touches the alert store at all). -/
theorem c7_short_tx_rejected_no_effect (store : List Transaction)
    (chatId arg : String) (fetch : Except Unit (Option TransactionApiResponse))
    (h : arg.length ≤ 50) :
    (txCommand store chatId arg fetch).2.1 = store
    ∧ (txCommand store chatId arg fetch).2.2 = false
    ∧ ((txCommand store chatId arg fetch).1 = .ok .missingId
        ∨ (txCommand store chatId arg fetch).1 = .ok .invalidId) := by
  by_cases he : arg = ""
  · subst he
    exact ⟨rfl, rfl, Or.inl rfl⟩
  · refine ⟨?_, ?_, Or.inr ?_⟩ <;> simp only [txCommand, if_neg he, if_pos h]

/-- Witness for C7 at a concrete short transaction id. -/
theorem c7_short_tx_rejected_no_effect_witness :
    ("abc".length ≤ 50)
    ∧ ((txCommand ([] : List Transaction) "chat" "abc" (.ok none)).2.1 = []
        ∧ (txCommand ([] : List Transaction) "chat" "abc" (.ok none)).2.2 = false
        ∧ ((txCommand ([] : List Transaction) "chat" "abc" (.ok none)).1 =
              .ok .missingId
            ∨ (txCommand ([] : List Transaction) "chat" "abc" (.ok none)).1 =
              .ok .invalidId)) :=
  ⟨by decide, c7_short_tx_rejected_no_effect [] "chat" "abc" (.ok none) (by decide)⟩

/-- C8: fetching fees is idempotent inside the 60-second cache window:
if a call returns a snapshot `v` and a second call happens within 60
seconds of the snapshot's fetch timestamp, the second call returns the
identical snapshot and identical cache state without performing any
upstream fetch (its result does not depend on the upstream outcome `o2`),
so at most one upstream fetch happens across the two calls. -/
theorem c8_cache_idempotent (t1 t2 : ℤ) (st : FeesCache) (o1 o2 : FetchOutcome)
    (v : MempoolApiResponse) (st1 : FeesCache) (b1 : Bool) (T : ℤ)
    (h1 : fetchFees t1 st o1 = (.ok v, st1, b1))
    (hT : st1.cachedAt = some T) (hwin : t2 - T ≤ 1000 * 60) :
    fetchFees t2 st1 o2 = (.ok v, st1, false)
    ∧ b1.toNat + (fetchFees t2 st1 o2).2.2.toNat ≤ 1 := by
  have hc : st1.cached = some v := fetchFees_ok_cached t1 st o1 v st1 b1 h1
  obtain ⟨c, t⟩ := st1
  simp only at hc hT
  subst hc
  subst hT
  have heq : fetchFees t2 ⟨some v, some T⟩ o2 = (.ok v, ⟨some v, some T⟩, false) := by
    simp only [fetchFees]
    rw [if_pos hwin]
  refine ⟨heq, ?_⟩
  rw [heq]
  cases b1 <;> simp

/-- Witness for C8: a fresh fetch at time 0 followed by a call at time 30
whose upstream (never consulted) would even fail. -/
theorem c8_cache_idempotent_witness :
    (fetchFees 0 ⟨none, none⟩ (.success 200 (some ⟨9, 8, 7, 6, 5⟩)) =
        (.ok ⟨9, 8, 7, 6, 5⟩, ⟨some ⟨9, 8, 7, 6, 5⟩, some 0⟩, true))
    ∧ ((⟨some ⟨9, 8, 7, 6, 5⟩, some 0⟩ : FeesCache).cachedAt = some 0)
    ∧ ((30 : ℤ) - 0 ≤ 1000 * 60)
    ∧ (fetchFees 30 ⟨some ⟨9, 8, 7, 6, 5⟩, some 0⟩ .networkError =
        (.ok ⟨9, 8, 7, 6, 5⟩, ⟨some ⟨9, 8, 7, 6, 5⟩, some 0⟩, false)
       ∧ Bool.toNat true +
          (fetchFees 30 ⟨some ⟨9, 8, 7, 6, 5⟩, some 0⟩ .networkError).2.2.toNat ≤ 1) :=
  ⟨rfl, rfl, by norm_num,
    c8_cache_idempotent 0 30 ⟨none, none⟩ (.success 200 (some ⟨9, 8, 7, 6, 5⟩))
      .networkError ⟨9, 8, 7, 6, 5⟩ ⟨some ⟨9, 8, 7, 6, 5⟩, some 0⟩ true 0
      rfl rfl (by norm_num)⟩

/-- C9: the `/alert` handler rejects exactly the arguments that parse to
NaN (`none`) or to 0; every other rational argument, negative numbers
included, is accepted, and a record for the caller with exactly that
threshold is stored (inserted or overwritten). -/
theorem c9_alert_validation (store : List UserAlert) (chatId : String)
    (q : ℚ) (hq : q ≠ 0) :
    alertCommand store chatId none = (store, false)
    ∧ alertCommand store chatId (some 0) = (store, false)
    ∧ (alertCommand store chatId (some q)).2 = true
    ∧ ∃ a ∈ (alertCommand store chatId (some q)).1,
        a.telegram_id = chatId ∧ a.feeAmount = q := by
  refine ⟨rfl, by simp [alertCommand], ?_, ?_⟩
  · simp only [alertCommand, if_neg hq]
    rcases hf : findOneAlert store chatId with _ | a0 <;> simp [hf]
  · simp only [alertCommand, if_neg hq]
    rcases hf : findOneAlert store chatId with _ | a0
    · exact ⟨⟨chatId, q, .hourFee⟩, by simp, rfl, rfl⟩
    · exact updateOneAlertFee_mem store chatId q a0 hf

/-- Witness for C9 at the negative threshold -5. -/
theorem c9_alert_validation_witness :
    ((-5 : ℚ) ≠ 0)
    ∧ (alertCommand [] "u" none = ([], false)
        ∧ alertCommand [] "u" (some 0) = ([], false)
        ∧ (alertCommand [] "u" (some (-5))).2 = true
        ∧ ∃ a ∈ (alertCommand [] "u" (some (-5))).1,
            a.telegram_id = "u" ∧ a.feeAmount = -5) :=
  ⟨by norm_num, c9_alert_validation [] "u" (-5) (by norm_num)⟩

/-- C4: in both sweeps the store mutation is conditioned on the send
succeeding: a matched fee alert's task leaves the store unchanged when
`sendMessage` rejects and deletes the alert record exactly when it
fulfills; a watch whose upstream status reports confirmed leaves the
store unchanged when the confirmation send rejects and merges
`confirmed := true` into the record exactly when it fulfills. -/
theorem c4_mutation_iff_send_success (store : List UserAlert) (alert : UserAlert)
    (tstore : List Transaction) (w : Transaction) (r : TransactionApiResponse)
    (hr : r.status.confirmed = true) :
    processFeeAlert store alert (.error ()) = (.error (), store)
    ∧ (processFeeAlert store alert (.ok ())).2 = deleteOneAlert store alert
    ∧ occAlert (processFeeAlert store alert (.ok ())).2 alert =
        occAlert store alert - 1
    ∧ (alert ∈ store ∧ occAlert store alert = 1 →
        alert ∉ (processFeeAlert store alert (.ok ())).2)
    ∧ checkTransactionStep tstore w ⟨.ok (some r), .error ()⟩ = (.error (), tstore)
    ∧ (checkTransactionStep tstore w ⟨.ok (some r), .ok ()⟩).2 =
        updateOneTxConfirmed tstore w
    ∧ (w ∈ tstore → { w with confirmed := true } ∈
        (checkTransactionStep tstore w ⟨.ok (some r), .ok ()⟩).2) := by
  have hstep : (checkTransactionStep tstore w ⟨.ok (some r), .ok ()⟩).2 =
      updateOneTxConfirmed tstore w := by
    simp [checkTransactionStep, hr]
  refine ⟨rfl, rfl, occAlert_deleteOneAlert_self store alert, ?_,
    by simp [checkTransactionStep, hr], hstep, ?_⟩
  · rintro ⟨_, h1⟩ hmem
    have hpos := (occAlert_pos_iff_mem
      (processFeeAlert store alert (.ok ())).2 alert).mpr hmem
    have hz : occAlert (processFeeAlert store alert (.ok ())).2 alert =
        occAlert store alert - 1 := occAlert_deleteOneAlert_self store alert
    omega
  · intro hw
    rw [hstep]
    exact updateOneTxConfirmed_mem tstore w hw

/-- Witness for C4 at a concrete alert, watch and confirmed upstream
response. -/
theorem c4_mutation_iff_send_success_witness :
    (⟨⟨true, some 800000⟩⟩ : TransactionApiResponse).status.confirmed = true
    ∧ (processFeeAlert [⟨"u", 5, .hourFee⟩] ⟨"u", 5, .hourFee⟩ (.error ()) =
          (.error (), [⟨"u", 5, .hourFee⟩])
        ∧ (processFeeAlert [⟨"u", 5, .hourFee⟩] ⟨"u", 5, .hourFee⟩ (.ok ())).2 =
          deleteOneAlert [⟨"u", 5, .hourFee⟩] ⟨"u", 5, .hourFee⟩
        ∧ occAlert (processFeeAlert [⟨"u", 5, .hourFee⟩] ⟨"u", 5, .hourFee⟩
              (.ok ())).2 ⟨"u", 5, .hourFee⟩ =
          occAlert [⟨"u", 5, .hourFee⟩] ⟨"u", 5, .hourFee⟩ - 1
        ∧ ((⟨"u", 5, .hourFee⟩ : UserAlert) ∈ [(⟨"u", 5, .hourFee⟩ : UserAlert)]
            ∧ occAlert [⟨"u", 5, .hourFee⟩] ⟨"u", 5, .hourFee⟩ = 1 →
            (⟨"u", 5, .hourFee⟩ : UserAlert) ∉
              (processFeeAlert [⟨"u", 5, .hourFee⟩] ⟨"u", 5, .hourFee⟩ (.ok ())).2)
        ∧ checkTransactionStep [⟨"x", "u", false⟩] ⟨"x", "u", false⟩
            ⟨.ok (some ⟨⟨true, some 800000⟩⟩), .error ()⟩ =
          (.error (), [⟨"x", "u", false⟩])
        ∧ (checkTransactionStep [⟨"x", "u", false⟩] ⟨"x", "u", false⟩
            ⟨.ok (some ⟨⟨true, some 800000⟩⟩), .ok ()⟩).2 =
          updateOneTxConfirmed [⟨"x", "u", false⟩] ⟨"x", "u", false⟩
        ∧ ((⟨"x", "u", false⟩ : Transaction) ∈ [(⟨"x", "u", false⟩ : Transaction)] →
            { (⟨"x", "u", false⟩ : Transaction) with confirmed := true } ∈
              (checkTransactionStep [⟨"x", "u", false⟩] ⟨"x", "u", false⟩
                ⟨.ok (some ⟨⟨true, some 800000⟩⟩), .ok ()⟩).2)) :=
  ⟨rfl, c4_mutation_iff_send_success [⟨"u", 5, .hourFee⟩] ⟨"u", 5, .hourFee⟩
    [⟨"x", "u", false⟩] ⟨"x", "u", false⟩ ⟨⟨true, some 800000⟩⟩ rfl⟩

/-- C5: assuming the store holds at most one alert per recipient id, every
valid `/alert` call preserves that invariant and leaves exactly one record
for the caller: with no existing record it appends exactly one new record,
and with an existing record it overwrites that record's threshold in place
(no second record is created). -/
theorem c5_alert_upsert_unique (store : List UserAlert) (chatId : String)
    (q : ℚ) (hq : q ≠ 0) (hinv : ∀ id, countById store id ≤ 1) :
    (∀ id, countById (alertCommand store chatId (some q)).1 id ≤ 1)
    ∧ countById (alertCommand store chatId (some q)).1 chatId = 1
    ∧ (findOneAlert store chatId = none →
        (alertCommand store chatId (some q)).1 = store ++ [⟨chatId, q, .hourFee⟩])
    ∧ (∀ a0, findOneAlert store chatId = some a0 →
        (alertCommand store chatId (some q)).1 = updateOneAlertFee store chatId q) := by
  rcases hf : findOneAlert store chatId with _ | a0
  · have hres : (alertCommand store chatId (some q)).1 =
        store ++ [⟨chatId, q, .hourFee⟩] := by
      simp [alertCommand, hq, hf]
    rw [hres]
    have h0 := findOneAlert_none store chatId hf
    refine ⟨?_, ?_, fun _ => rfl, ?_⟩
    · intro id
      rw [countById_append_single]
      have hil := hinv id
      by_cases hid : chatId = id
      · subst hid
        have h1 : countById [(⟨chatId, q, FeeType.hourFee⟩ : UserAlert)] chatId ≤ 1 :=
          List.countP_le_length _
        omega
      · have h1 : countById [(⟨chatId, q, FeeType.hourFee⟩ : UserAlert)] id = 0 := by
          simp [countById, hid]
        omega
    · rw [countById_append_single, h0]
      simp [countById]
    · intro a0 h
      cases h
  · have hres : (alertCommand store chatId (some q)).1 =
        updateOneAlertFee store chatId q := by
      simp [alertCommand, hq, hf]
    rw [hres]
    refine ⟨?_, ?_, ?_, fun _ _ => rfl⟩
    · intro id
      rw [countById_updateOneAlertFee]
      exact hinv id
    · rw [countById_updateOneAlertFee]
      have hge := findOneAlert_some store chatId a0 hf
      have hle := hinv chatId
      omega
    · intro h
      cases h

/-- Witness for C5: overwriting the single existing record for "u". -/
theorem c5_alert_upsert_unique_witness :
    ((7 : ℚ) ≠ 0)
    ∧ (∀ id, countById [⟨"u", 3, .hourFee⟩] id ≤ 1)
    ∧ ((∀ id, countById (alertCommand [⟨"u", 3, .hourFee⟩] "u" (some 7)).1 id ≤ 1)
        ∧ countById (alertCommand [⟨"u", 3, .hourFee⟩] "u" (some 7)).1 "u" = 1
        ∧ (findOneAlert [⟨"u", 3, .hourFee⟩] "u" = none →
            (alertCommand [⟨"u", 3, .hourFee⟩] "u" (some 7)).1 =
              [⟨"u", 3, .hourFee⟩] ++ [⟨"u", 7, .hourFee⟩])
        ∧ (∀ a0, findOneAlert [⟨"u", 3, .hourFee⟩] "u" = some a0 →
            (alertCommand [⟨"u", 3, .hourFee⟩] "u" (some 7)).1 =
              updateOneAlertFee [⟨"u", 3, .hourFee⟩] "u" 7)) :=
  ⟨by norm_num, fun _ => List.countP_le_length _,
    c5_alert_upsert_unique [⟨"u", 3, .hourFee⟩] "u" 7 (by norm_num)
      (fun _ => List.countP_le_length _)⟩

/-- C6: the confirmed flag is monotonic under every operation: the
transaction sweep only ever iterates over records with confirmed = false,
returns a store of the same length whose records are pointwise either
unchanged or flipped from unconfirmed to confirmed (never the reverse),
and retains every already-confirmed record unchanged; the `/tx` handler
leaves existing records in place and can only append a record with
confirmed = false. -/
theorem c6_confirmed_monotone (store : List Transaction)
    (env : Transaction → WatchEnv) (tstore : List Transaction)
    (chatId arg : String) (fetch : Except Unit (Option TransactionApiResponse)) :
    (∀ w ∈ (checkTransactionsJob store env).1, w.confirmed = false)
    ∧ List.Forall₂ monoStepTx store (checkTransactionsJob store env).2.2
    ∧ (checkTransactionsJob store env).2.2.length = store.length
    ∧ (∀ w ∈ store, w.confirmed = true → w ∈ (checkTransactionsJob store env).2.2)
    ∧ ∃ tail, (txCommand tstore chatId arg fetch).2.1 = tstore ++ tail
        ∧ ∀ t ∈ tail, t.confirmed = false := by
  have hpend : ∀ v ∈ store.filter (fun t => t.confirmed = false),
      v.confirmed = false := by
    intro v hv
    simpa using (List.mem_filter.mp hv).2
  have hmono : List.Forall₂ monoStepTx store (checkTransactionsJob store env).2.2 :=
    runWatchLoop_mono env (store.filter (fun t => t.confirmed = false)) store hpend
  refine ⟨?_, hmono, (hmono.length_eq).symm,
    forall₂_mono_confirmed_mem store _ hmono, ?_⟩
  · intro w hw
    exact hpend w (runWatchLoop_checked_subset env _ store w hw)
  · rcases txCommand_store_cases tstore chatId arg fetch with h | h
    · exact ⟨[], by rw [List.append_nil]; exact h, by simp⟩
    · refine ⟨[⟨arg, chatId, false⟩], h, ?_⟩
      intro t ht
      rw [List.mem_singleton] at ht
      subst ht
      rfl

/-- C10: in the transaction sweep a single failing iteration (fetch or
send rejection) aborts the rest of the tick: exactly the pending watches
up to and including the failing one are checked and the job rejects, so
later unconfirmed watches are not checked that tick; by contrast the fee
sweep isolates failures: an alert whose own send succeeds is deleted no
matter which other alerts' sends fail. -/
theorem c10_sequential_abort_vs_isolated (store : List Transaction)
    (env : Transaction → WatchEnv) (p1 p2 : List Transaction) (w : Transaction)
    (hsplit : store.filter (fun t => t.confirmed = false) = p1 ++ w :: p2)
    (hok : ∀ v ∈ p1, stepOutcome (env v) = .ok ())
    (hfail : stepOutcome (env w) = .error ())
    (astore : List UserAlert) (fees : MempoolApiResponse)
    (sendEnv : UserAlert → Except Unit Unit) (a : UserAlert)
    (hinv : ∀ id, countById astore id ≤ 1) (ha : a ∈ astore)
    (hm : fees.hourFee ≤ a.feeAmount) (hs : sendEnv a = .ok ()) :
    (checkTransactionsJob store env).1 = p1 ++ [w]
    ∧ (checkTransactionsJob store env).2.1 = .error ()
    ∧ a ∉ (checkFeesJob astore fees sendEnv).2 := by
  have habort := runWatchLoop_abort env w p2 hfail p1 store hok
  have hj : checkTransactionsJob store env =
      runWatchLoop env (p1 ++ w :: p2) store := by
    unfold checkTransactionsJob
    rw [hsplit]
  refine ⟨by rw [hj]; exact habort.1, by rw [hj]; exact habort.2, ?_⟩
  have hmem : a ∈ matchedAlerts astore fees :=
    List.mem_filter.mpr ⟨ha, by simpa using hm⟩
  have h1 : occAlert (matchedAlerts astore fees) a ≤ occAlert astore a :=
    List.Sublist.countP_le _ (List.filter_sublist _)
  have h2 : occAlert astore a ≤ 1 :=
    le_trans (occAlert_le_countById astore a) (hinv a.telegram_id)
  have h0 := feeSweep_fold_deletes sendEnv a hs (matchedAlerts astore fees)
    astore hmem (le_trans h1 h2) h2
  intro hmem2
  have hpos := (occAlert_pos_iff_mem _ a).mpr hmem2
  have hfinal : (checkFeesJob astore fees sendEnv).2 =
      (matchedAlerts astore fees).foldl
        (fun s b => (processFeeAlert s b (sendEnv b)).2) astore := rfl
  rw [hfinal] at hpos
  omega

/-- Witness for C10: three pending watches where the middle one's fetch
rejects, and one matched alert whose send succeeds. -/
theorem c10_sequential_abort_vs_isolated_witness :
    ([(⟨"t1", "u1", false⟩ : Transaction), ⟨"t2", "u2", false⟩,
        ⟨"t3", "u3", false⟩].filter (fun t => t.confirmed = false) =
      [(⟨"t1", "u1", false⟩ : Transaction)] ++ ⟨"t2", "u2", false⟩ ::
        [(⟨"t3", "u3", false⟩ : Transaction)])
    ∧ (∀ v ∈ [(⟨"t1", "u1", false⟩ : Transaction)],
        stepOutcome ((fun t => if t.txId = "t2" then
            (⟨.error (), .ok ()⟩ : WatchEnv) else ⟨.ok none, .ok ()⟩) v) = .ok ())
    ∧ stepOutcome ((fun t => if t.txId = "t2" then
        (⟨.error (), .ok ()⟩ : WatchEnv) else ⟨.ok none, .ok ()⟩)
          (⟨"t2", "u2", false⟩ : Transaction)) = .error ()
    ∧ (∀ id, countById [⟨"u", 5, .hourFee⟩] id ≤ 1)
    ∧ (⟨"u", 5, .hourFee⟩ : UserAlert) ∈ [(⟨"u", 5, .hourFee⟩ : UserAlert)]
    ∧ (⟨20, 15, 4, 3, 1⟩ : MempoolApiResponse).hourFee ≤
        (⟨"u", 5, .hourFee⟩ : UserAlert).feeAmount
    ∧ ((fun _ => (Except.ok () : Except Unit Unit)) (⟨"u", 5, .hourFee⟩ : UserAlert))
        = Except.ok ()
    ∧ ((checkTransactionsJob [⟨"t1", "u1", false⟩, ⟨"t2", "u2", false⟩,
          ⟨"t3", "u3", false⟩] (fun t => if t.txId = "t2" then
            (⟨.error (), .ok ()⟩ : WatchEnv) else ⟨.ok none, .ok ()⟩)).1 =
        [(⟨"t1", "u1", false⟩ : Transaction)] ++ [⟨"t2", "u2", false⟩]
      ∧ (checkTransactionsJob [⟨"t1", "u1", false⟩, ⟨"t2", "u2", false⟩,
          ⟨"t3", "u3", false⟩] (fun t => if t.txId = "t2" then
            (⟨.error (), .ok ()⟩ : WatchEnv) else ⟨.ok none, .ok ()⟩)).2.1 =
        .error ()
      ∧ (⟨"u", 5, .hourFee⟩ : UserAlert) ∉
        (checkFeesJob [⟨"u", 5, .hourFee⟩] ⟨20, 15, 4, 3, 1⟩
          (fun _ => Except.ok ())).2) :=
  ⟨rfl,
    by intro v hv; rw [List.mem_singleton] at hv; subst hv; rfl,
    rfl,
    fun _ => List.countP_le_length _,
    by simp,
    by norm_num,
    rfl,
    c10_sequential_abort_vs_isolated
      [⟨"t1", "u1", false⟩, ⟨"t2", "u2", false⟩, ⟨"t3", "u3", false⟩]
      (fun t => if t.txId = "t2" then
        (⟨.error (), .ok ()⟩ : WatchEnv) else ⟨.ok none, .ok ()⟩)
      [⟨"t1", "u1", false⟩] [⟨"t3", "u3", false⟩] ⟨"t2", "u2", false⟩
      rfl
      (by intro v hv; rw [List.mem_singleton] at hv; subst hv; rfl)
      rfl
      [⟨"u", 5, .hourFee⟩] ⟨20, 15, 4, 3, 1⟩ (fun _ => Except.ok ())
      ⟨"u", 5, .hourFee⟩
      (fun _ => List.countP_le_length _)
      (by simp)
      (by norm_num)
      rfl⟩

end BitcoinFeesAlert
